import Mathlib

/-!
A shallow embedding of the terrain-generation core of the Space-Game
repository (noise map generator, biome classifier, consistency checker and
terrain mesh builder), together with theorems settling the specification
claims about it.

JavaScript numbers are modelled as rationals (`ℚ`); `Math.sin`, whose exact
IEEE-754 behaviour is library-defined, is modelled as an uninterpreted
parameter `sinf : ℚ → ℚ` threaded through the definitions.  All theorems
about the noise pipeline quantify over this parameter, so they hold in
particular for the actual sine function.
-/

namespace SpaceGame

/-- `clamp` from the source (line 27): `Math.min(Math.max(num, lower), upper)`. -/
def clamp (num lower upper : ℚ) : ℚ := min (max num lower) upper

/-- The seeded pseudo-random draw from `generateNoiseMap` (lines 464-467):
`s = Math.sin(s) * 10000; return s - Math.floor(s)`. -/
def seededRandom (sinf : ℚ → ℚ) (s : ℚ) : ℚ :=
  let t := sinf s * 10000
  t - Int.floor t

/-- The shuffle index drawn at step `i` (line 471):
`Math.floor(seededRandom(seed + i) * (i + 1))`, used as an array index. -/
def drawIndex (sinf : ℚ → ℚ) (seed : ℚ) (i : ℕ) : ℕ :=
  (Int.floor (seededRandom sinf (seed + (i : ℚ)) * ((i : ℚ) + 1))).toNat

/-- The destructuring swap `[perm[i], perm[j]] = [perm[j], perm[i]]`
(line 472): both entries are read before either is written. -/
def swapEntries (l : List ℕ) (i j : ℕ) : List ℕ :=
  (l.set i (l.getD j 0)).set j (l.getD i 0)

/-- The Fisher-Yates loop (lines 470-473), counting `i` down to 1:
`shuffleSteps sinf seed n l` performs the swaps for `i = n, n-1, ..., 1`. -/
def shuffleSteps (sinf : ℚ → ℚ) (seed : ℚ) : ℕ → List ℕ → List ℕ
  | 0, l => l
  | i + 1, l => shuffleSteps sinf seed i (swapEntries l (i + 1) (drawIndex sinf seed (i + 1)))

/-- The permutation table built by `generateNoiseMap` (lines 458-473):
the identity array `[0..255]` shuffled by the seeded Fisher-Yates loop. -/
def permutation (sinf : ℚ → ℚ) (seed : ℚ) : List ℕ :=
  shuffleSteps sinf seed 255 (List.range 256)

/-- `fade` (line 476): the smoothing polynomial `t*t*t*(t*(t*6-15)+10)`. -/
def fade (t : ℚ) : ℚ := t * t * t * (t * (t * 6 - 15) + 10)

/-- `lerp` (line 477): `a + t * (b - a)`. -/
def lerp (t a b : ℚ) : ℚ := a + t * (b - a)

/-- `grad` (lines 478-483).  The hash is a table entry (a natural number);
`hash & 3` is `hash % 4`, `h & 1` tests the low bit and `h & 2` is nonzero
exactly when `2 ≤ h` (given `h < 4`). -/
def grad (hash : ℕ) (x y : ℚ) : ℚ :=
  let h := hash % 4
  let u := if h < 2 then x else y
  let v := if h < 2 then y else x
  (if h % 2 = 1 then -u else u) + (if 2 ≤ h then -v else v)

/-- The 2-D noise sample (lines 485-498), reading the doubled permutation
table `p`.  `Math.floor(x) & 255` on an integer is `Math.floor(x) % 256`
(JavaScript `&` converts via two's complement, and `256` divides `2^32`). -/
def noise (p : List ℕ) (x y : ℚ) : ℚ :=
  let X : ℕ := ((Int.floor x) % 256).toNat
  let Y : ℕ := ((Int.floor y) % 256).toNat
  let xf := x - Int.floor x
  let yf := y - Int.floor y
  let u := fade xf
  let v := fade yf
  let a := p.getD X 0 + Y
  let b := p.getD (X + 1) 0 + Y
  lerp v
    (lerp u (grad (p.getD a 0) xf yf) (grad (p.getD b 0) (xf - 1) yf))
    (lerp u (grad (p.getD (a + 1) 0) xf (yf - 1)) (grad (p.getD (b + 1) 0) (xf - 1) (yf - 1)))

/-- One iteration of the octave loop (lines 508-516) on the state
`(amplitude, frequency, noiseValue)`. -/
def octaveStep (p : List ℕ) (scale persistence lacunarity sx sy : ℚ)
    (st : ℚ × ℚ × ℚ) : ℚ × ℚ × ℚ :=
  (st.1 * persistence, st.2.1 * lacunarity,
    st.2.2 + noise p (sx * scale * st.2.1) (sy * scale * st.2.1) * st.1)

/-- The accumulated multi-octave noise value for one cell (lines 504-516).
The loop `for (octave = 0; octave < octaves; octave++)` runs
`⌈octaves⌉` times when `octaves > 0` and not at all otherwise. -/
def octaveSum (p : List ℕ) (octaves : ℚ) (scale persistence lacunarity sx sy : ℚ) : ℚ :=
  ((List.range (Int.ceil octaves).toNat).foldl
    (fun st _ => octaveStep p scale persistence lacunarity sx sy st) (1, 1, 0)).2.2

/-- `generateNoiseMap` (lines 446-524): the row-major grid of normalized
multi-octave noise values `(noiseValue + 1) / 2`. -/
def generateNoiseMap (sinf : ℚ → ℚ) (width height : ℕ) (seed scale octaves
    persistence lacunarity offsetX offsetY : ℚ) : List (List ℚ) :=
  let perm := permutation sinf seed
  let p := perm ++ perm
  (List.range height).map fun (y : ℕ) =>
    (List.range width).map fun (x : ℕ) =>
      (octaveSum p octaves scale persistence lacunarity
        ((x : ℚ) + offsetX) ((y : ℚ) + offsetY) + 1) / 2

/-- The `Biome` interface (lines 427-434).  The `color` field of the source
holds a `three.Color`; only its three channels are observable in the terrain
core, so it is modelled as an RGB triple of rationals. -/
structure Biome where
  name : String
  temperatureRange : ℚ × ℚ
  humidityRange : ℚ × ℚ
  heightRange : Option (ℚ × ℚ) := none
  color : ℚ × ℚ × ℚ
  weight : ℚ
  deriving DecidableEq, Inhabited, Repr

/-- The filter predicate of the classifier (lines 566-570): the sample's
temperature and humidity must lie inclusively in the rule's ranges, and when
the optional `heightRange` is present it must contain the height as well. -/
def biomeMatches (b : Biome) (temp humid hgt : ℚ) : Bool :=
  decide (b.temperatureRange.1 ≤ temp) && decide (temp ≤ b.temperatureRange.2) &&
  decide (b.humidityRange.1 ≤ humid) && decide (humid ≤ b.humidityRange.2) &&
  (match b.heightRange with
   | some hr => decide (hr.1 ≤ hgt) && decide (hgt ≤ hr.2)
   | none => true)

/-- The `reduce` step (lines 575-577): keep the accumulator unless the next
rule's weight is strictly greater. -/
def pickHeavier (prev cur : Biome) : Biome :=
  if prev.weight < cur.weight then cur else prev

/-- The classification step of `generateTerrainMesh` (lines 566-580): filter
the viable rules, then `reduce` keeping the current rule only when the next
one has strictly greater weight; with no viable rule, fall back to
`biomes[0]` (`none` when the rule list itself is empty, where the source
would produce `undefined`). -/
def classifyBiome (rules : List Biome) (temp humid hgt : ℚ) : Option Biome :=
  let viable := rules.filter fun b => biomeMatches b temp humid hgt
  match viable with
  | [] => rules.head?
  | b :: bs => some (bs.foldl pickHeavier b)

/-- The static biome table (lines 624-683), hex colors decoded to channels. -/
def biomes : List Biome :=
  [ { name := "Grassland", temperatureRange := (1/4, 1/2), humidityRange := (9/20, 3/5),
      color := (124/255, 252/255, 0), weight := 2 },
    { name := "Tundra", temperatureRange := (0, 1/4), humidityRange := (9/20, 1),
      color := (217/255, 251/255, 1), weight := 1 },
    { name := "Forest", temperatureRange := (1/4, 3/5), humidityRange := (3/5, 1),
      color := (55/255, 97/255, 55/255), weight := 1 },
    { name := "Savanna", temperatureRange := (1/2, 3/4), humidityRange := (0, 1/2),
      color := (215/255, 161/255, 0), weight := 1 },
    { name := "Desert", temperatureRange := (3/5, 1), humidityRange := (0, 3/10),
      color := (237/255, 201/255, 175/255), weight := 1 },
    { name := "Tropical Rainforest", temperatureRange := (3/4, 1), humidityRange := (1/2, 1),
      color := (0, 133/255, 62/255), weight := 1 },
    { name := "Beach", temperatureRange := (1/2, 1), humidityRange := (3/10, 7/10),
      heightRange := some (0, 3/10), color := (1, 245/255, 186/255), weight := 10 },
    { name := "Ocean", temperatureRange := (0, 1), humidityRange := (0, 1),
      heightRange := some (0, 3/20), color := (30/255, 144/255, 1), weight := 100 } ]

/-- The pairwise temperature/humidity overlap test of `checkBiomes`
(lines 691-700): each pair of ranges overlaps when either interval contains
an endpoint of the other (all bounds inclusive). -/
def overlapWarn (b1 b2 : Biome) : Bool :=
  (decide (b2.temperatureRange.1 ≥ b1.temperatureRange.1) && decide (b2.temperatureRange.1 ≤ b1.temperatureRange.2) ||
   decide (b2.temperatureRange.2 ≥ b1.temperatureRange.1) && decide (b2.temperatureRange.2 ≤ b1.temperatureRange.2) ||
   decide (b1.temperatureRange.1 ≥ b2.temperatureRange.1) && decide (b1.temperatureRange.1 ≤ b2.temperatureRange.2) ||
   decide (b1.temperatureRange.2 ≥ b2.temperatureRange.1) && decide (b1.temperatureRange.2 ≤ b2.temperatureRange.2)) &&
  (decide (b2.humidityRange.1 ≥ b1.humidityRange.1) && decide (b2.humidityRange.1 ≤ b1.humidityRange.2) ||
   decide (b2.humidityRange.2 ≥ b1.humidityRange.1) && decide (b2.humidityRange.2 ≤ b1.humidityRange.2) ||
   decide (b1.humidityRange.1 ≥ b2.humidityRange.1) && decide (b1.humidityRange.1 ≤ b2.humidityRange.2) ||
   decide (b1.humidityRange.2 ≥ b2.humidityRange.1) && decide (b1.humidityRange.2 ≤ b2.humidityRange.2))

/-- `checkBiomes` (lines 684-707) over an explicit rule list: the index
pairs `(i, j)` with `i < j` whose biomes trigger the overlap warning. -/
def checkBiomes (rules : List Biome) : List (ℕ × ℕ) :=
  (List.range rules.length).flatMap fun i =>
    ((List.range' (i + 1) (rules.length - (i + 1))).filter fun j =>
      overlapWarn (rules.getD i default) (rules.getD j default)).map fun j => (i, j)

/-- `Math.floor(num / den)` used as an array index: division by zero yields
`NaN` or `±Infinity`, an index at which the subsequent row access produces
`undefined` and the program throws, modelled as `none`. -/
def floorDivIdx (num den : ℚ) : Option ℤ :=
  if den = 0 then none else some (Int.floor (num / den))

/-- Array access at a signed index: `none` exactly when the index is outside
the array (where JavaScript produces `undefined`). -/
def zget {α : Type} (m : List α) (i : ℤ) : Option α :=
  if 0 ≤ i then m[i.toNat]? else none

/-- Option-valued traversal mirroring a loop that throws (aborts the whole
computation) as soon as one iteration fails. -/
def mapMO {α β : Type} (f : α → Option β) : List α → Option (List β)
  | [] => some []
  | a :: t =>
    match f a, mapMO f t with
    | some b, some r => some (b :: r)
    | _, _ => none

/-- One cell of the biome map (lines 557-583).  The row indices
`Math.floor(z*255/segments)` are invalid when `segments = 0` (a `0/0 = NaN`
index), in which case the row access yields `undefined` and the following
element access throws (`none`).  An out-of-range element access inside a
valid row yields the value `undefined`, whose range comparisons are all
false, so no rule matches and the first-rule fallback applies. -/
def meshBiomeAt (tempMap humidMap noiseMap : List (List ℚ)) (segments : ℤ)
    (z x : ℕ) : Option Biome :=
  match floorDivIdx ((z : ℚ) * 255) (segments : ℚ),
        floorDivIdx ((x : ℚ) * 255) (segments : ℚ) with
  | some tz, some tx =>
    match zget tempMap tz, zget humidMap tz with
    | some trow, some hrow =>
      (match zget trow tx, zget hrow tx with
       | some temp, some humid =>
         classifyBiome biomes temp humid ((noiseMap.getD z []).getD x 0)
       | _, _ => biomes.head?)
    | _, _ => none
  | _, _ => none

/-- Modelled from the external `three.PlaneGeometry(size, size, segments,
segments)` after the quarter-turn `rotateX` (lines 527 and 588): a row-major
`(segments+1) × (segments+1)` grid of vertices in the XZ plane with zero
elevation; a non-positive segment count yields `max 0 (segments+1)` rows. -/
def planeGeometryPositions (size : ℚ) (segments : ℤ) : List (ℚ × ℚ × ℚ) :=
  let n := (segments + 1).toNat
  (List.range n).flatMap fun (iz : ℕ) =>
    (List.range n).map fun (ix : ℕ) =>
      (size * (ix : ℚ) / (segments : ℚ) - size / 2, 0,
       size * (iz : ℚ) / (segments : ℚ) - size / 2)

/-- The observable output of `generateTerrainMesh`: vertex positions after
displacement and the flat per-vertex RGB color buffer. -/
structure TerrainMesh where
  positions : List (ℚ × ℚ × ℚ)
  colors : List ℚ
  deriving DecidableEq, Repr

/-- The temperature grid of `generateTerrainMesh` before the modifier shift
(line 530): `generateNoiseMap(256, 256, seed, 0.01, 4, 0.5, 2.0, offsetX,
offsetY)`. -/
def temperatureMapRaw (sinf : ℚ → ℚ) (seed offsetX offsetY : ℚ) : List (List ℚ) :=
  generateNoiseMap sinf 256 256 seed (1/100) 4 (1/2) 2 offsetX offsetY

/-- The humidity grid of `generateTerrainMesh` before the modifier shift
(line 531): `generateNoiseMap(256, 256, seed, 0.01, 4, 0.5, 2.0, offsetX,
offsetY)`. -/
def humidityMapRaw (sinf : ℚ → ℚ) (seed offsetX offsetY : ℚ) : List (List ℚ) :=
  generateNoiseMap sinf 256 256 seed (1/100) 4 (1/2) 2 offsetX offsetY

/-- The temperature grid after the modifier shift and clamp (lines
532-537). -/
def meshTempMap (sinf : ℚ → ℚ) (seed offsetX offsetY tempModifier : ℚ) : List (List ℚ) :=
  (temperatureMapRaw sinf seed offsetX offsetY).map
    (List.map fun v => clamp (v + tempModifier) 0 1)

/-- The humidity grid after the modifier shift and clamp (lines 532-537). -/
def meshHumidMap (sinf : ℚ → ℚ) (seed offsetX offsetY humidModifier : ℚ) : List (List ℚ) :=
  (humidityMapRaw sinf seed offsetX offsetY).map
    (List.map fun v => clamp (v + humidModifier) 0 1)

/-- The height grid of the mesh (line 528):
`generateNoiseMap(segments + 1, segments + 1, ...)`. -/
def meshNoiseMap (sinf : ℚ → ℚ) (segments : ℤ)
    (seed scale octaves persistence lacunarity offsetX offsetY : ℚ) : List (List ℚ) :=
  generateNoiseMap sinf (segments + 1).toNat (segments + 1).toNat seed scale
    octaves persistence lacunarity offsetX offsetY

/-- The biome map loop (lines 555-584): `none` when a lookup throws. -/
def meshBiomeMapOpt (sinf : ℚ → ℚ) (segments : ℤ)
    (seed scale octaves persistence lacunarity offsetX offsetY
     tempModifier humidModifier : ℚ) : Option (List (List Biome)) :=
  let n := (segments + 1).toNat
  mapMO (fun z => mapMO (fun x =>
      meshBiomeAt (meshTempMap sinf seed offsetX offsetY tempModifier)
        (meshHumidMap sinf seed offsetX offsetY humidModifier)
        (meshNoiseMap sinf segments seed scale octaves persistence lacunarity offsetX offsetY)
        segments z x) (List.range n)) (List.range n)

/-- The vertex displacement loop (lines 590-595): vertex `i` maps to grid
cell `(i / (segments+1), i % (segments+1))` and its elevation is the noise
value scaled by the amplitude. -/
def meshPositions (sinf : ℚ → ℚ) (size : ℚ) (segments : ℤ)
    (seed scale octaves persistence lacunarity amplitude offsetX offsetY : ℚ) :
    List (ℚ × ℚ × ℚ) :=
  let n := (segments + 1).toNat
  let noiseMap := meshNoiseMap sinf segments seed scale octaves persistence
    lacunarity offsetX offsetY
  (planeGeometryPositions size segments).mapIdx fun i pos =>
    (pos.1, (noiseMap.getD (i / n) []).getD (i % n) 0 * amplitude, pos.2.2)

/-- The color buffer loop (lines 598-604): three channel entries pushed per
cell, row-major. -/
def meshColors (biomeMap : List (List Biome)) : List ℚ :=
  (biomeMap.map fun row =>
    (row.map fun b => [b.color.1, b.color.2.1, b.color.2.2]).flatten).flatten

/-- `generateTerrainMesh` (lines 526-608).  Returns `none` when the biome
map construction throws (the `segments = 0` case); otherwise the displaced
positions and the row-major color buffer. -/
def generateTerrainMesh (sinf : ℚ → ℚ) (size : ℚ) (segments : ℤ)
    (seed scale octaves persistence lacunarity amplitude offsetX offsetY
     tempModifier humidModifier : ℚ) : Option TerrainMesh :=
  match meshBiomeMapOpt sinf segments seed scale octaves persistence lacunarity
      offsetX offsetY tempModifier humidModifier with
  | none => none
  | some biomeMap =>
    some { positions := meshPositions sinf size segments seed scale octaves
             persistence lacunarity amplitude offsetX offsetY,
           colors := meshColors biomeMap }

/-! ### Fisher-Yates shuffle: permutation validity -/

/-- Extracting the entry at position `s` of `t` to the front while writing
`a` into that position is a permutation of putting `a` in front of `t`. -/
theorem getD_set_cons_perm (a : ℕ) : ∀ (t : List ℕ) (s : ℕ), s < t.length →
    List.Perm (t.getD s 0 :: t.set s a) (a :: t) := by
  intro t
  induction t with
  | nil => intro s hs; simp at hs
  | cons b t ih =>
    intro s hs
    cases s with
    | zero => simpa using List.Perm.swap a b t
    | succ s =>
      have hs' : s < t.length := by simpa using hs
      have h1 : List.Perm (t.getD s 0 :: b :: t.set s a) (b :: t.getD s 0 :: t.set s a) :=
        List.Perm.swap b (t.getD s 0) (t.set s a)
      have h2 : List.Perm (b :: t.getD s 0 :: t.set s a) (b :: a :: t) := (ih s hs').cons b
      have h3 : List.Perm (b :: a :: t) (a :: b :: t) := List.Perm.swap a b t
      simpa using (h1.trans h2).trans h3

/-- The in-bounds destructuring swap permutes the list. -/
theorem swapEntries_perm : ∀ (l : List ℕ) (i j : ℕ), i < l.length → j < l.length →
    List.Perm (swapEntries l i j) l := by
  intro l
  induction l with
  | nil => intro i j hi _; simp at hi
  | cons b t ih =>
    intro i j hi hj
    cases i with
    | zero =>
      cases j with
      | zero => simp [swapEntries]
      | succ j =>
        have hj' : j < t.length := by simpa using hj
        simpa [swapEntries] using getD_set_cons_perm b t j hj'
    | succ i =>
      cases j with
      | zero =>
        have hi' : i < t.length := by simpa using hi
        simpa [swapEntries] using getD_set_cons_perm b t i hi'
      | succ j =>
        have hi' : i < t.length := by simpa using hi
        have hj' : j < t.length := by simpa using hj
        simpa [swapEntries] using (ih i j hi' hj').cons b

/-- The fractional part drawn by `seededRandom` lies in `[0, 1)`, so the
index drawn at step `i` lies in `[0, i]` for every sine model. -/
theorem seededRandom_nonneg (sinf : ℚ → ℚ) (s : ℚ) : 0 ≤ seededRandom sinf s := by
  simp only [seededRandom]
  exact sub_nonneg.mpr (Int.floor_le (sinf s * 10000))

theorem seededRandom_lt_one (sinf : ℚ → ℚ) (s : ℚ) : seededRandom sinf s < 1 := by
  simp only [seededRandom]
  have := Int.lt_floor_add_one (sinf s * 10000)
  linarith

theorem drawIndex_le (sinf : ℚ → ℚ) (seed : ℚ) (i : ℕ) : drawIndex sinf seed i ≤ i := by
  have h0 := seededRandom_nonneg sinf (seed + (i : ℚ))
  have h1 := seededRandom_lt_one sinf (seed + (i : ℚ))
  have hpos : (0 : ℚ) < (i : ℚ) + 1 := by positivity
  have hlt : seededRandom sinf (seed + (i : ℚ)) * ((i : ℚ) + 1) < (i : ℚ) + 1 := by
    nlinarith
  have hfl : Int.floor (seededRandom sinf (seed + (i : ℚ)) * ((i : ℚ) + 1)) < (i : ℤ) + 1 := by
    apply Int.floor_lt.mpr
    push_cast
    linarith
  simp only [drawIndex]
  omega

theorem swapEntries_length (l : List ℕ) (i j : ℕ) :
    (swapEntries l i j).length = l.length := by
  simp [swapEntries]

/-- Every prefix of the Fisher-Yates loop permutes its input list. -/
theorem shuffleSteps_perm (sinf : ℚ → ℚ) (seed : ℚ) : ∀ (n : ℕ) (l : List ℕ),
    n < l.length → List.Perm (shuffleSteps sinf seed n l) l := by
  intro n
  induction n with
  | zero => intro l _; simp [shuffleSteps]
  | succ n ih =>
    intro l h
    have hj : drawIndex sinf seed (n + 1) < l.length :=
      lt_of_le_of_lt (drawIndex_le sinf seed (n + 1)) h
    have hswap := swapEntries_perm l (n + 1) (drawIndex sinf seed (n + 1)) h hj
    have hlen := swapEntries_length l (n + 1) (drawIndex sinf seed (n + 1))
    have hrec := ih (swapEntries l (n + 1) (drawIndex sinf seed (n + 1))) (by omega)
    simpa [shuffleSteps] using hrec.trans hswap

/-- C5. For every sine model and every seed, the 256-entry table built by
the seeded Fisher-Yates shuffle is a permutation of `0..255`, these are
exactly the first 256 entries of the doubled 512-entry table, and the
construction is total (it never fails). -/
theorem permutation_table_valid (sinf : ℚ → ℚ) (seed : ℚ) :
    List.Perm (permutation sinf seed) (List.range 256) ∧
    (permutation sinf seed ++ permutation sinf seed).take 256 = permutation sinf seed := by
  have hperm : List.Perm (permutation sinf seed) (List.range 256) :=
    shuffleSteps_perm sinf seed 255 (List.range 256) (by simp)
  refine ⟨hperm, ?_⟩
  have hlen : (permutation sinf seed).length = 256 := by
    simpa using hperm.length_eq
  rw [List.take_append_of_le_length (by omega), List.take_of_length_le (by omega)]

/-! ### Noise value analysis -/

/-- With a zero second coordinate the gradient collapses to plus or minus
the first coordinate, whatever the hash. -/
theorem grad_snd_zero (h : ℕ) (x : ℚ) : grad h x 0 = x ∨ grad h x 0 = -x := by
  simp only [grad]
  split_ifs <;> first
    | (left; ring1)
    | (right; ring1)

theorem floor_quarter : Int.floor (1/4 : ℚ) = 0 := by
  rw [Int.floor_eq_zero_iff]
  constructor <;> norm_num

/-- `noise` at the sample point `(1/4, 0)`, reduced to its two live gradient
lookups. -/
theorem noise_quarter_eq (p : List ℕ) : noise p (1/4) 0 =
    lerp (53/512) (grad (p.getD (p.getD 0 0) 0) (1/4) 0)
      (grad (p.getD (p.getD 1 0) 0) (-3/4) 0) := by
  simp only [noise, floor_quarter, Int.floor_zero]
  norm_num [fade, lerp]

/-- For every table, the noise sample at `(1/4, 0)` is one of four nonzero
values. -/
theorem noise_quarter_cases (p : List ℕ) :
    noise p (1/4) 0 = 309/1024 ∨ noise p (1/4) 0 = 75/512 ∨
    noise p (1/4) 0 = -75/512 ∨ noise p (1/4) 0 = -309/1024 := by
  have e := noise_quarter_eq p
  rcases grad_snd_zero (p.getD (p.getD 0 0) 0) (1/4) with h1 | h1 <;>
    rcases grad_snd_zero (p.getD (p.getD 1 0) 0) (-3/4) with h2 | h2 <;>
      rw [e, h1, h2] <;> norm_num [lerp]

/-- The noise sample at the origin vanishes for every table: both
interpolation weights and all four gradients are zero there. -/
theorem noise_zero_zero (p : List ℕ) : noise p 0 0 = 0 := by
  simp only [noise, grad, fade, lerp, Int.floor_zero]
  norm_num

theorem getD_map_range {α : Type} (f : ℕ → α) (n k : ℕ) (d : α) (h : k < n) :
    ((List.range n).map f).getD k d = f k := by
  rw [List.getD_eq_getElem _ _ (by simpa using h), List.getElem_map, List.getElem_range]

/-- Cell `(y, x)` of the generated grid, extracted from the row-major map
structure. -/
theorem noiseMap_cell (sinf : ℚ → ℚ) (width height : ℕ) (seed scale octaves
    persistence lacunarity offsetX offsetY : ℚ) (y x : ℕ)
    (hy : y < height) (hx : x < width) :
    ((generateNoiseMap sinf width height seed scale octaves persistence
        lacunarity offsetX offsetY).getD y []).getD x 0 =
      (octaveSum (permutation sinf seed ++ permutation sinf seed) octaves scale
        persistence lacunarity ((x : ℚ) + offsetX) ((y : ℚ) + offsetY) + 1) / 2 := by
  simp only [generateNoiseMap]
  rw [getD_map_range _ _ _ _ hy, getD_map_range _ _ _ _ hx]

/-- With a non-positive octave count the octave loop never runs, so every
cell is `(0 + 1) / 2 = 1/2`; the spec's claimed clamping to one octave does
not exist in the code. -/
theorem noiseMap_octaves_nonpos (sinf : ℚ → ℚ) (width height : ℕ)
    (seed scale octaves persistence lacunarity offsetX offsetY : ℚ)
    (hoct : octaves ≤ 0) :
    generateNoiseMap sinf width height seed scale octaves persistence
      lacunarity offsetX offsetY =
      List.replicate height (List.replicate width (1/2)) := by
  have hceil : (Int.ceil octaves).toNat = 0 := by
    have h1 : Int.ceil octaves ≤ 0 := Int.ceil_le.mpr (by exact_mod_cast hoct)
    omega
  simp only [generateNoiseMap, octaveSum, hceil, List.range_zero, List.foldl_nil]
  rw [List.eq_replicate_iff]
  refine ⟨by simp, ?_⟩
  intro row hrow
  simp only [List.mem_map] at hrow
  obtain ⟨y, _, rfl⟩ := hrow
  rw [List.eq_replicate_iff]
  refine ⟨by simp, ?_⟩
  intro v hv
  simp only [List.mem_map] at hv
  obtain ⟨x, _, rfl⟩ := hv
  norm_num

/-- The noise value accumulated with zero scale is zero: every octave
samples the origin. -/
theorem octaveSum_scale_zero (p : List ℕ) (octaves persistence lacunarity sx sy : ℚ) :
    octaveSum p octaves 0 persistence lacunarity sx sy = 0 := by
  simp only [octaveSum]
  have key : ∀ (ks : List ℕ) (a f v : ℚ),
      ((ks.foldl (fun st _ => octaveStep p 0 persistence lacunarity sx sy st)
        (a, f, v)).2.2 = v) := by
    intro ks
    induction ks with
    | nil => intro a f v; simp
    | cons k t ih =>
      intro a f v
      rw [List.foldl_cons]
      rw [show octaveStep p 0 persistence lacunarity sx sy (a, f, v) =
        (a * persistence, f * lacunarity, v) from ?_]
      · exact ih _ _ _
      · simp only [octaveStep]
        rw [show sx * 0 * f = 0 by ring, show sy * 0 * f = 0 by ring,
          noise_zero_zero, zero_mul, add_zero]
  exact key _ 1 1 0

/-- With zero scale every cell of the grid equals `1/2`: the grid is
constant, with no division by zero anywhere. -/
theorem noiseMap_scale_zero (sinf : ℚ → ℚ) (width height : ℕ)
    (seed octaves persistence lacunarity offsetX offsetY : ℚ) :
    generateNoiseMap sinf width height seed 0 octaves persistence
      lacunarity offsetX offsetY =
      List.replicate height (List.replicate width (1/2)) := by
  simp only [generateNoiseMap, octaveSum_scale_zero]
  rw [List.eq_replicate_iff]
  refine ⟨by simp, ?_⟩
  intro row hrow
  simp only [List.mem_map] at hrow
  obtain ⟨y, _, rfl⟩ := hrow
  rw [List.eq_replicate_iff]
  refine ⟨by simp, ?_⟩
  intro v hv
  simp only [List.mem_map] at hv
  obtain ⟨x, _, rfl⟩ := hv
  norm_num

/-! ### Claims C4, C9, C10 -/

/-- C4 (amended). `generateNoiseMap` is total — no division by zero and no
unbounded loop for any input — but octaves below 1 are not clamped to 1:
a non-positive octave count skips the octave loop entirely and yields the
constant grid of `1/2` cells, and `scale = 0` likewise yields a constant
grid (every octave samples the origin, where the noise vanishes). -/
theorem noiseMap_degenerate_inputs (sinf : ℚ → ℚ) (width height : ℕ)
    (seed scale octaves persistence lacunarity offsetX offsetY : ℚ) :
    (octaves ≤ 0 →
      generateNoiseMap sinf width height seed scale octaves persistence
        lacunarity offsetX offsetY =
        List.replicate height (List.replicate width (1/2))) ∧
    (scale = 0 →
      generateNoiseMap sinf width height seed scale octaves persistence
        lacunarity offsetX offsetY =
        List.replicate height (List.replicate width (1/2))) := by
  constructor
  · intro h
    exact noiseMap_octaves_nonpos sinf width height seed scale octaves
      persistence lacunarity offsetX offsetY h
  · intro h
    subst h
    exact noiseMap_scale_zero sinf width height seed octaves persistence
      lacunarity offsetX offsetY

/-- Witness for `noiseMap_degenerate_inputs` at concrete inputs. -/
theorem noiseMap_degenerate_inputs_witness :
    ((-3 : ℚ) ≤ 0 ∧
      generateNoiseMap (fun _ => 0) 2 2 7 1 (-3) (1/2) 2 0 0 =
        List.replicate 2 (List.replicate 2 (1/2))) ∧
    ((0 : ℚ) = 0 ∧
      generateNoiseMap (fun _ => 0) 2 2 7 0 4 (1/2) 2 0 0 =
        List.replicate 2 (List.replicate 2 (1/2))) :=
  ⟨⟨by norm_num,
    (noiseMap_degenerate_inputs (fun _ => 0) 2 2 7 1 (-3) (1/2) 2 0 0).1 (by norm_num)⟩,
   ⟨rfl, (noiseMap_degenerate_inputs (fun _ => 0) 2 2 7 0 4 (1/2) 2 0 0).2 rfl⟩⟩

/-- C4 (counterexample). The claim that an octave count below 1 behaves
like an octave count of 1 is false: with zero octaves the grid is constant
`1/2`, while one octave at scale `1/4` produces a provably different cell
for every sine model (shown here for one concrete model). -/
theorem octaves_clamp_counterexample :
    ¬ (∀ (sinf : ℚ → ℚ) (width height : ℕ)
        (seed scale octaves persistence lacunarity offsetX offsetY : ℚ),
        octaves ≤ 0 →
        generateNoiseMap sinf width height seed scale octaves persistence
          lacunarity offsetX offsetY =
        generateNoiseMap sinf width height seed scale 1 persistence
          lacunarity offsetX offsetY) := by
  intro H
  have h := H (fun _ => 0) 2 1 0 (1/4) 0 (1/2) 2 0 0 le_rfl
  rw [noiseMap_octaves_nonpos (fun _ => 0) 2 1 0 (1/4) 0 (1/2) 2 0 0 le_rfl] at h
  have hcell := noiseMap_cell (fun _ => (0 : ℚ)) 2 1 0 (1/4) 1 (1/2) 2 0 0 0 1
    (by norm_num) (by norm_num)
  rw [← h] at hcell
  simp only [List.replicate_succ, List.replicate_zero, List.getD_cons_zero,
    List.getD_cons_succ] at hcell
  have hsum : octaveSum
      (permutation (fun _ => (0 : ℚ)) 0 ++ permutation (fun _ => (0 : ℚ)) 0)
      1 (1/4) (1/2) 2 (((1 : ℕ) : ℚ) + 0) (((0 : ℕ) : ℚ) + 0) =
      noise (permutation (fun _ => (0 : ℚ)) 0 ++ permutation (fun _ => (0 : ℚ)) 0)
        (1/4) 0 := by
    simp only [octaveSum, octaveStep, Int.ceil_one, Int.toNat_one,
      show List.range 1 = [0] from rfl, List.foldl_cons, List.foldl_nil]
    norm_num
  rw [hsum] at hcell
  rcases noise_quarter_cases
      (permutation (fun _ => (0 : ℚ)) 0 ++ permutation (fun _ => (0 : ℚ)) 0)
    with hn | hn | hn | hn <;> rw [hn] at hcell <;> norm_num at hcell

/-- C9. `generateNoiseMap` is deterministic: it is a pure function of its
arguments (in particular the seed is the sole randomness source), so two
calls with identical arguments return identical grids. -/
theorem noiseMap_deterministic (sinf : ℚ → ℚ) (width height : ℕ)
    (seed scale octaves persistence lacunarity offsetX offsetY : ℚ) :
    generateNoiseMap sinf width height seed scale octaves persistence
      lacunarity offsetX offsetY =
    generateNoiseMap sinf width height seed scale octaves persistence
      lacunarity offsetX offsetY := rfl

/-- C10. The temperature and humidity grids of `generateTerrainMesh` are
produced by `generateNoiseMap` calls with identical arguments (same seed,
256 by 256 cells, scale `0.01`, 4 octaves, persistence `0.5`, lacunarity
`2`, same offsets), so before the modifier shifts they are equal
cell-for-cell. -/
theorem raw_temperature_eq_humidity (sinf : ℚ → ℚ) (seed offsetX offsetY : ℚ) :
    temperatureMapRaw sinf seed offsetX offsetY =
      generateNoiseMap sinf 256 256 seed (1/100) 4 (1/2) 2 offsetX offsetY ∧
    humidityMapRaw sinf seed offsetX offsetY =
      generateNoiseMap sinf 256 256 seed (1/100) 4 (1/2) 2 offsetX offsetY ∧
    temperatureMapRaw sinf seed offsetX offsetY =
      humidityMapRaw sinf seed offsetX offsetY :=
  ⟨rfl, rfl, rfl⟩

/-! ### Claim C1: range of the normalized grid -/

theorem fade_nonneg {t : ℚ} (h0 : 0 ≤ t) : 0 ≤ fade t := by
  have hq : (0 : ℚ) ≤ 6 * t ^ 2 - 15 * t + 10 := by nlinarith [sq_nonneg (t - 5/4)]
  have hcube : (0 : ℚ) ≤ t ^ 3 := pow_nonneg h0 3
  simp only [fade]
  nlinarith [mul_nonneg hcube hq]

theorem fade_le_one {t : ℚ} (h0 : 0 ≤ t) (h1 : t ≤ 1) : fade t ≤ 1 := by
  have ha : (0 : ℚ) ≤ (1 - t) ^ 3 := pow_nonneg (by linarith) 3
  have hb : (0 : ℚ) ≤ 6 * t ^ 2 + 3 * t + 1 := by positivity
  simp only [fade]
  nlinarith [mul_nonneg ha hb]

theorem abs_grad_le (h : ℕ) (x y : ℚ) : |grad h x y| ≤ |x| + |y| := by
  simp only [grad]
  split_ifs <;>
    refine (abs_add _ _).trans (le_of_eq ?_) <;>
      simp [abs_neg, add_comm]

theorem lerp_abs_le {t a b M : ℚ} (h0 : 0 ≤ t) (h1 : t ≤ 1)
    (ha : |a| ≤ M) (hb : |b| ≤ M) : |lerp t a b| ≤ M := by
  rw [abs_le] at *
  simp only [lerp]
  constructor <;> nlinarith

/-- A single noise sample is bounded by 2 in absolute value, for every
table: all four corner gradients are, and interpolation cannot escape the
corner bounds. -/
theorem abs_noise_le_two (p : List ℕ) (x y : ℚ) : |noise p x y| ≤ 2 := by
  have hxf0 : (0 : ℚ) ≤ x - Int.floor x := sub_nonneg.mpr (Int.floor_le x)
  have hxf1 : x - Int.floor x ≤ 1 := by
    have := Int.lt_floor_add_one x
    linarith
  have hyf0 : (0 : ℚ) ≤ y - Int.floor y := sub_nonneg.mpr (Int.floor_le y)
  have hyf1 : y - Int.floor y ≤ 1 := by
    have := Int.lt_floor_add_one y
    linarith
  have habs : ∀ (u v : ℚ), 0 ≤ u → u ≤ 1 → 0 ≤ v → v ≤ 1 → ∀ hsh : ℕ,
      |grad hsh u (v - 1)| ≤ 2 ∧ |grad hsh (u - 1) (v - 1)| ≤ 2 ∧
      |grad hsh u v| ≤ 2 ∧ |grad hsh (u - 1) v| ≤ 2 := by
    intro u v hu0 hu1 hv0 hv1 hsh
    have h1 : |u| ≤ 1 := by rw [abs_of_nonneg hu0]; exact hu1
    have h2 : |u - 1| ≤ 1 := abs_le.mpr ⟨by linarith, by linarith⟩
    have h3 : |v| ≤ 1 := by rw [abs_of_nonneg hv0]; exact hv1
    have h4 : |v - 1| ≤ 1 := abs_le.mpr ⟨by linarith, by linarith⟩
    exact ⟨(abs_grad_le _ _ _).trans (by linarith),
      (abs_grad_le _ _ _).trans (by linarith),
      (abs_grad_le _ _ _).trans (by linarith),
      (abs_grad_le _ _ _).trans (by linarith)⟩
  simp only [noise]
  refine lerp_abs_le (fade_nonneg hyf0) (fade_le_one hyf0 hyf1) ?_ ?_ <;>
    refine lerp_abs_le (fade_nonneg hxf0) (fade_le_one hxf0 hxf1) ?_ ?_
  · exact ((habs _ _ hxf0 hxf1 hyf0 hyf1 _).2.2).1
  · exact ((habs _ _ hxf0 hxf1 hyf0 hyf1 _).2.2).2
  · exact (habs _ _ hxf0 hxf1 hyf0 hyf1 _).1
  · exact ((habs _ _ hxf0 hxf1 hyf0 hyf1 _).2).1

/-- The accumulated octave sum is bounded by twice the sum of the absolute
amplitudes `|persistence|^k` over the executed octaves. -/
theorem octaveSum_abs_le (p : List ℕ) (octaves scale persistence lacunarity sx sy : ℚ) :
    |octaveSum p octaves scale persistence lacunarity sx sy| ≤
      2 * ∑ k in Finset.range (Int.ceil octaves).toNat, |persistence| ^ k := by
  have key : ∀ (ks : List ℕ) (a fr v : ℚ),
      |((ks.foldl (fun st _ => octaveStep p scale persistence lacunarity sx sy st)
          (a, fr, v)).2.2)| ≤
        |v| + 2 * |a| * ∑ k in Finset.range ks.length, |persistence| ^ k := by
    intro ks
    induction ks with
    | nil => intro a fr v; simp
    | cons k t ih =>
      intro a fr v
      rw [List.foldl_cons]
      have hstep : octaveStep p scale persistence lacunarity sx sy (a, fr, v) =
          (a * persistence, fr * lacunarity,
            v + noise p (sx * scale * fr) (sy * scale * fr) * a) := rfl
      rw [hstep]
      refine (ih _ _ _).trans ?_
      have hsumeq : ∑ k in Finset.range (t.length + 1), |persistence| ^ k =
          1 + |persistence| * ∑ k in Finset.range t.length, |persistence| ^ k := by
        rw [Finset.sum_range_succ']
        simp only [pow_succ, pow_zero]
        rw [← Finset.sum_mul]
        ring
      have hnoise := abs_noise_le_two p (sx * scale * fr) (sy * scale * fr)
      have habs1 : |v + noise p (sx * scale * fr) (sy * scale * fr) * a| ≤ |v| + 2 * |a| := by
        refine (abs_add _ _).trans ?_
        rw [abs_mul]
        nlinarith [abs_nonneg a, abs_nonneg (noise p (sx * scale * fr) (sy * scale * fr))]
      have hsumnn : (0 : ℚ) ≤ ∑ k in Finset.range t.length, |persistence| ^ k :=
        Finset.sum_nonneg fun k _ => pow_nonneg (abs_nonneg _) k
      rw [List.length_cons, hsumeq, abs_mul]
      nlinarith [abs_nonneg a, abs_nonneg persistence]
  have := key (List.range (Int.ceil octaves).toNat) 1 1 0
  simpa [octaveSum] using this

/-- C1 (amended). Every cell of the grid is the multi-octave sum normalized
via `(sum + 1) / 2`, but the sum is only confined to the interval
`[-2T, 2T]` with `T = ∑ |persistence|^k` over the executed octaves — not to
`[-1, 1]` — so a cell is only guaranteed to lie within `1/2 ± T`, and can
leave `[0, 1]` when `T > 1/2`. -/
theorem noiseMap_cell_normalized_bound (sinf : ℚ → ℚ) (width height : ℕ)
    (seed scale octaves persistence lacunarity offsetX offsetY : ℚ)
    (y x : ℕ) (hy : y < height) (hx : x < width) :
    ((generateNoiseMap sinf width height seed scale octaves persistence
        lacunarity offsetX offsetY).getD y []).getD x 0 =
      (octaveSum (permutation sinf seed ++ permutation sinf seed) octaves scale
        persistence lacunarity ((x : ℚ) + offsetX) ((y : ℚ) + offsetY) + 1) / 2 ∧
    |((generateNoiseMap sinf width height seed scale octaves persistence
        lacunarity offsetX offsetY).getD y []).getD x 0 - 1/2| ≤
      ∑ k in Finset.range (Int.ceil octaves).toNat, |persistence| ^ k := by
  have hc := noiseMap_cell sinf width height seed scale octaves persistence
    lacunarity offsetX offsetY y x hy hx
  refine ⟨hc, ?_⟩
  rw [hc]
  have hb := octaveSum_abs_le (permutation sinf seed ++ permutation sinf seed)
    octaves scale persistence lacunarity ((x : ℚ) + offsetX) ((y : ℚ) + offsetY)
  rw [abs_le] at hb ⊢
  constructor <;> [nlinarith [hb.1]; nlinarith [hb.2]]

/-- Witness for `noiseMap_cell_normalized_bound` at a concrete input. -/
theorem noiseMap_cell_normalized_bound_witness :
    (0 : ℕ) < 1 ∧ (0 : ℕ) < 1 ∧
    (((generateNoiseMap (fun _ => 0) 1 1 0 1 1 (1/2) 2 0 0).getD 0 []).getD 0 0 =
      (octaveSum (permutation (fun _ => 0) 0 ++ permutation (fun _ => 0) 0) 1 1 (1/2) 2
        (((0 : ℕ) : ℚ) + 0) (((0 : ℕ) : ℚ) + 0) + 1) / 2 ∧
    |((generateNoiseMap (fun _ => 0) 1 1 0 1 1 (1/2) 2 0 0).getD 0 []).getD 0 0 - 1/2| ≤
      ∑ k in Finset.range (Int.ceil (1 : ℚ)).toNat, |(1/2 : ℚ)| ^ k) :=
  ⟨by norm_num, by norm_num,
    noiseMap_cell_normalized_bound (fun _ => 0) 1 1 0 1 1 (1/2) 2 0 0 0 0
      (by norm_num) (by norm_num)⟩

/-- C1 (counterexample). The claim that every cell lies in `[0, 1]` for all
arguments is false: with two octaves of persistence 10 and lacunarity 1 at
scale `1/4`, the octave sum is `11` times a noise sample that is provably
nonzero for every sine model, pushing the normalized cell out of `[0, 1]`. -/
theorem noiseMap_unit_range_counterexample :
    ¬ (∀ (sinf : ℚ → ℚ) (width height : ℕ)
        (seed scale octaves persistence lacunarity offsetX offsetY : ℚ)
        (y x : ℕ), y < height → x < width →
        0 ≤ ((generateNoiseMap sinf width height seed scale octaves persistence
          lacunarity offsetX offsetY).getD y []).getD x 0 ∧
        ((generateNoiseMap sinf width height seed scale octaves persistence
          lacunarity offsetX offsetY).getD y []).getD x 0 ≤ 1) := by
  intro H
  obtain ⟨h0, h1⟩ := H (fun _ => 0) 2 1 0 (1/4) 2 10 1 0 0 0 1 (by norm_num) (by norm_num)
  rw [noiseMap_cell (fun _ => (0 : ℚ)) 2 1 0 (1/4) 2 10 1 0 0 0 1
    (by norm_num) (by norm_num)] at h0 h1
  have hsum : octaveSum
      (permutation (fun _ => (0 : ℚ)) 0 ++ permutation (fun _ => (0 : ℚ)) 0)
      2 (1/4) 10 1 (((1 : ℕ) : ℚ) + 0) (((0 : ℕ) : ℚ) + 0) =
      11 * noise (permutation (fun _ => (0 : ℚ)) 0 ++ permutation (fun _ => (0 : ℚ)) 0)
        (1/4) 0 := by
    simp only [octaveSum]
    rw [show (Int.ceil (2 : ℚ)).toNat = 2 from by decide,
      show List.range 2 = [0, 1] from rfl]
    simp only [List.foldl_cons, List.foldl_nil, octaveStep]
    norm_num
    ring
  rw [hsum] at h0 h1
  rcases noise_quarter_cases
      (permutation (fun _ => (0 : ℚ)) 0 ++ permutation (fun _ => (0 : ℚ)) 0)
    with hn | hn | hn | hn <;> rw [hn] at h0 h1 <;> linarith

/-! ### Claims C2 and C3: the biome classifier -/

/-- The `reduce` over a nonempty list returns the first element of maximum
weight: every element strictly before it weighs strictly less, every
element after it weighs no more. -/
theorem foldl_pickHeavier_first : ∀ (l : List Biome) (a : Biome),
    ∃ l1 l2, a :: l = l1 ++ (l.foldl pickHeavier a) :: l2 ∧
      (∀ b ∈ l1, b.weight < (l.foldl pickHeavier a).weight) ∧
      (∀ b ∈ l2, b.weight ≤ (l.foldl pickHeavier a).weight) := by
  intro l
  induction l with
  | nil => intro a; exact ⟨[], [], rfl, by simp, by simp⟩
  | cons c t ih =>
    intro a
    rw [List.foldl_cons]
    by_cases hw : a.weight < c.weight
    · rw [show pickHeavier a c = c from if_pos hw]
      obtain ⟨m1, m2, hdec, hbefore, hafter⟩ := ih c
      have hcr : c.weight ≤ (t.foldl pickHeavier c).weight := by
        cases m1 with
        | nil =>
          simp only [List.nil_append, List.cons.injEq] at hdec
          exact le_of_eq (congrArg Biome.weight hdec.1)
        | cons d m1' =>
          simp only [List.cons_append, List.cons.injEq] at hdec
          have hd := hbefore d (List.mem_cons_self d m1')
          rw [← hdec.1] at hd
          exact le_of_lt hd
      refine ⟨a :: m1, m2, ?_, ?_, hafter⟩
      · rw [List.cons_append, ← hdec]
      · intro b hb
        rcases List.mem_cons.mp hb with rfl | hb
        · exact lt_of_lt_of_le hw hcr
        · exact hbefore b hb
    · rw [show pickHeavier a c = a from if_neg hw]
      push_neg at hw
      obtain ⟨m1, m2, hdec, hbefore, hafter⟩ := ih a
      cases m1 with
      | nil =>
        simp only [List.nil_append, List.cons.injEq] at hdec
        refine ⟨[], c :: m2, ?_, by simp, ?_⟩
        · rw [List.nil_append, ← hdec.1, ← hdec.2]
        · intro b hb
          rcases List.mem_cons.mp hb with rfl | hb
          · exact hw.trans (le_of_eq (congrArg Biome.weight hdec.1))
          · exact hafter b hb
      | cons d m1' =>
        simp only [List.cons_append, List.cons.injEq] at hdec
        have hstrict : a.weight < (t.foldl pickHeavier a).weight := by
          have hd := hbefore d (List.mem_cons_self d m1')
          rw [← hdec.1] at hd
          exact hd
        refine ⟨a :: c :: m1', m2, ?_, ?_, hafter⟩
        · rw [List.cons_append, List.cons_append]
          exact congrArg (a :: ·) (congrArg (c :: ·) hdec.2)
        · intro b hb
          rcases List.mem_cons.mp hb with rfl | hb
          · exact hstrict
          · rcases List.mem_cons.mp hb with rfl | hb
            · exact lt_of_le_of_lt hw hstrict
            · exact hbefore b (List.mem_cons_of_mem d hb)

/-- The filter predicate, as a proposition. -/
theorem biomeMatches_iff (b : Biome) (temp humid hgt : ℚ) :
    biomeMatches b temp humid hgt = true ↔
      (b.temperatureRange.1 ≤ temp ∧ temp ≤ b.temperatureRange.2 ∧
       b.humidityRange.1 ≤ humid ∧ humid ≤ b.humidityRange.2 ∧
       (∀ lo hi, b.heightRange = some (lo, hi) → lo ≤ hgt ∧ hgt ≤ hi)) := by
  simp only [biomeMatches, Bool.and_eq_true, decide_eq_true_eq]
  cases hr : b.heightRange with
  | none => simp; tauto
  | some hrv =>
    obtain ⟨lo, hi⟩ := hrv
    simp only [Bool.and_eq_true, decide_eq_true_eq, Option.some.injEq, Prod.mk.injEq]
    constructor
    · rintro ⟨⟨⟨⟨h1, h2⟩, h3⟩, h4⟩, h5, h6⟩
      exact ⟨h1, h2, h3, h4, fun lo' hi' h => by
        obtain ⟨rfl, rfl⟩ := h
        exact ⟨h5, h6⟩⟩
    · rintro ⟨h1, h2, h3, h4, h5⟩
      obtain ⟨h5a, h5b⟩ := h5 lo hi ⟨rfl, rfl⟩
      exact ⟨⟨⟨⟨h1, h2⟩, h3⟩, h4⟩, h5a, h5b⟩

/-- C2. The classifier filters to the rules whose temperature and humidity
ranges contain the sample inclusively, requiring the optional height range
(when present) to contain the height; among the survivors it returns the
rule of maximum weight, and on ties the earliest survivor in sequence
order. -/
theorem classify_picks_heaviest_earliest (rules : List Biome) (temp humid hgt : ℚ) :
    (∀ b, b ∈ rules.filter (fun b => biomeMatches b temp humid hgt) ↔
      b ∈ rules ∧ (b.temperatureRange.1 ≤ temp ∧ temp ≤ b.temperatureRange.2 ∧
        b.humidityRange.1 ≤ humid ∧ humid ≤ b.humidityRange.2 ∧
        (∀ lo hi, b.heightRange = some (lo, hi) → lo ≤ hgt ∧ hgt ≤ hi))) ∧
    (∀ v vs, rules.filter (fun b => biomeMatches b temp humid hgt) = v :: vs →
      ∃ r l1 l2, classifyBiome rules temp humid hgt = some r ∧
        v :: vs = l1 ++ r :: l2 ∧
        (∀ b ∈ l1, b.weight < r.weight) ∧
        (∀ b ∈ l2, b.weight ≤ r.weight)) := by
  constructor
  · intro b
    rw [List.mem_filter, biomeMatches_iff]
  · intro v vs hf
    obtain ⟨l1, l2, hdec, hbefore, hafter⟩ := foldl_pickHeavier_first vs v
    refine ⟨vs.foldl pickHeavier v, l1, l2, ?_, hdec, hbefore, hafter⟩
    simp only [classifyBiome, hf]

/-- Witness for `classify_picks_heaviest_earliest`: three all-matching
rules with weights 1, 3, 3 — the classifier returns the first weight-3
rule. -/
theorem classify_picks_heaviest_earliest_witness :
    ([ { name := "A", temperatureRange := ((0 : ℚ), 1), humidityRange := ((0 : ℚ), 1),
         color := ((0 : ℚ), 0, 0), weight := 1 },
       { name := "B", temperatureRange := ((0 : ℚ), 1), humidityRange := ((0 : ℚ), 1),
         color := ((0 : ℚ), 0, 0), weight := 3 },
       { name := "C", temperatureRange := ((0 : ℚ), 1), humidityRange := ((0 : ℚ), 1),
         color := ((0 : ℚ), 0, 0), weight := 3 } ].filter
        (fun b => biomeMatches b (1/2) (1/2) (1/2)) =
      [ { name := "A", temperatureRange := ((0 : ℚ), 1), humidityRange := ((0 : ℚ), 1),
          color := ((0 : ℚ), 0, 0), weight := 1 },
        { name := "B", temperatureRange := ((0 : ℚ), 1), humidityRange := ((0 : ℚ), 1),
          color := ((0 : ℚ), 0, 0), weight := 3 },
        { name := "C", temperatureRange := ((0 : ℚ), 1), humidityRange := ((0 : ℚ), 1),
          color := ((0 : ℚ), 0, 0), weight := 3 } ]) ∧
    (∃ r l1 l2,
      classifyBiome
        [ { name := "A", temperatureRange := ((0 : ℚ), 1), humidityRange := ((0 : ℚ), 1),
            color := ((0 : ℚ), 0, 0), weight := 1 },
          { name := "B", temperatureRange := ((0 : ℚ), 1), humidityRange := ((0 : ℚ), 1),
            color := ((0 : ℚ), 0, 0), weight := 3 },
          { name := "C", temperatureRange := ((0 : ℚ), 1), humidityRange := ((0 : ℚ), 1),
            color := ((0 : ℚ), 0, 0), weight := 3 } ] (1/2) (1/2) (1/2) = some r ∧
        [ { name := "A", temperatureRange := ((0 : ℚ), 1), humidityRange := ((0 : ℚ), 1),
            color := ((0 : ℚ), 0, 0), weight := 1 },
          { name := "B", temperatureRange := ((0 : ℚ), 1), humidityRange := ((0 : ℚ), 1),
            color := ((0 : ℚ), 0, 0), weight := 3 },
          { name := "C", temperatureRange := ((0 : ℚ), 1), humidityRange := ((0 : ℚ), 1),
            color := ((0 : ℚ), 0, 0), weight := 3 } ] = l1 ++ r :: l2 ∧
        (∀ b ∈ l1, b.weight < r.weight) ∧
        (∀ b ∈ l2, b.weight ≤ r.weight)) := by
  refine ⟨by norm_num [List.filter, biomeMatches], ?_⟩
  exact (classify_picks_heaviest_earliest _ (1/2) (1/2) (1/2)).2 _ _
    (by norm_num [List.filter, biomeMatches])

/-- The classifier always resolves a nonempty rule list to some biome. -/
theorem classifyBiome_isSome (rules : List Biome) (temp humid hgt : ℚ)
    (hne : rules ≠ []) : (classifyBiome rules temp humid hgt).isSome := by
  cases hfil : rules.filter (fun b => biomeMatches b temp humid hgt) with
  | nil =>
    simp only [classifyBiome, hfil]
    cases rules with
    | nil => exact absurd rfl hne
    | cons a t => simp
  | cons v vs =>
    simp only [classifyBiome, hfil, Option.isSome_some]

/-- C3. With a nonempty rule sequence: when no rule matches, the classifier
returns the first rule of the sequence as a documented fallback, and in all
cases it resolves to exactly one biome (it is total). -/
theorem classify_fallback_total (rules : List Biome) (temp humid hgt : ℚ)
    (hne : rules ≠ []) :
    (rules.filter (fun b => biomeMatches b temp humid hgt) = [] →
      classifyBiome rules temp humid hgt = some (rules.head hne)) ∧
    (classifyBiome rules temp humid hgt).isSome := by
  constructor
  · intro hf
    simp only [classifyBiome, hf]
    exact List.head?_eq_head hne
  · exact classifyBiome_isSome rules temp humid hgt hne

/-- Witness for `classify_fallback_total`: a single non-matching rule — the
classifier falls back to it. -/
theorem classify_fallback_total_witness :
    ([ { name := "A", temperatureRange := ((0 : ℚ), 1), humidityRange := ((0 : ℚ), 1),
         color := ((0 : ℚ), 0, 0), weight := 1 } ] : List Biome) ≠ [] ∧
    classifyBiome
      [ { name := "A", temperatureRange := ((0 : ℚ), 1), humidityRange := ((0 : ℚ), 1),
          color := ((0 : ℚ), 0, 0), weight := 1 } ] 5 (1/2) (1/2) =
      some { name := "A", temperatureRange := ((0 : ℚ), 1), humidityRange := ((0 : ℚ), 1),
             color := ((0 : ℚ), 0, 0), weight := 1 } ∧
    (classifyBiome
      [ { name := "A", temperatureRange := ((0 : ℚ), 1), humidityRange := ((0 : ℚ), 1),
          color := ((0 : ℚ), 0, 0), weight := 1 } ] 5 (1/2) (1/2)).isSome := by
  refine ⟨by simp, ?_, ?_⟩
  · exact (classify_fallback_total _ 5 (1/2) (1/2) (by simp)).1
      (by norm_num [List.filter, biomeMatches])
  · exact (classify_fallback_total _ 5 (1/2) (1/2) (by simp)).2

/-! ### Claim C8: the consistency checker -/

/-- C8. The consistency checker reports the pair `(i, j)` exactly when
`i < j` and both the temperature and the humidity ranges of the two biomes
overlap, where overlap means one interval contains an endpoint of the other
(all bounds inclusive); height ranges are never consulted; and the two
biomes of the spec's example produce exactly one reported pair. -/
theorem checkBiomes_characterization :
    (∀ (rules : List Biome) (i j : ℕ),
      (i, j) ∈ checkBiomes rules ↔
        i < j ∧ j < rules.length ∧
        overlapWarn (rules.getD i default) (rules.getD j default) = true) ∧
    (∀ b1 b2 : Biome, overlapWarn b1 b2 = true ↔
      (((b1.temperatureRange.1 ≤ b2.temperatureRange.1 ∧
          b2.temperatureRange.1 ≤ b1.temperatureRange.2) ∨
        (b1.temperatureRange.1 ≤ b2.temperatureRange.2 ∧
          b2.temperatureRange.2 ≤ b1.temperatureRange.2) ∨
        (b2.temperatureRange.1 ≤ b1.temperatureRange.1 ∧
          b1.temperatureRange.1 ≤ b2.temperatureRange.2) ∨
        (b2.temperatureRange.1 ≤ b1.temperatureRange.2 ∧
          b1.temperatureRange.2 ≤ b2.temperatureRange.2)) ∧
       ((b1.humidityRange.1 ≤ b2.humidityRange.1 ∧
          b2.humidityRange.1 ≤ b1.humidityRange.2) ∨
        (b1.humidityRange.1 ≤ b2.humidityRange.2 ∧
          b2.humidityRange.2 ≤ b1.humidityRange.2) ∨
        (b2.humidityRange.1 ≤ b1.humidityRange.1 ∧
          b1.humidityRange.1 ≤ b2.humidityRange.2) ∨
        (b2.humidityRange.1 ≤ b1.humidityRange.2 ∧
          b1.humidityRange.2 ≤ b2.humidityRange.2)))) ∧
    (∀ (b1 b2 : Biome) (hr1 hr2 : Option (ℚ × ℚ)),
      overlapWarn { b1 with heightRange := hr1 } { b2 with heightRange := hr2 } =
        overlapWarn b1 b2) ∧
    (checkBiomes
      [ { name := "A", temperatureRange := ((0 : ℚ), 1/2), humidityRange := ((0 : ℚ), 1),
          color := ((0 : ℚ), 0, 0), weight := 1 },
        { name := "B", temperatureRange := ((3/10 : ℚ), 4/5), humidityRange := ((0 : ℚ), 1),
          color := ((0 : ℚ), 0, 0), weight := 1 } ] = [(0, 1)]) := by
  refine ⟨?_, ?_, ?_, ?_⟩
  · intro rules i j
    constructor
    · intro h
      simp only [checkBiomes, List.mem_flatMap, List.mem_map, List.mem_filter,
        List.mem_range, List.mem_range'_1, Prod.mk.injEq] at h
      obtain ⟨a, ha, j', ⟨⟨hj1, hj2⟩, hov⟩, rfl, rfl⟩ := h
      exact ⟨by omega, by omega, hov⟩
    · rintro ⟨hij, hjlen, hov⟩
      simp only [checkBiomes, List.mem_flatMap, List.mem_map, List.mem_filter,
        List.mem_range, List.mem_range'_1, Prod.mk.injEq]
      exact ⟨i, by omega, j, ⟨⟨by omega, by omega⟩, hov⟩, rfl, rfl⟩
  · intro b1 b2
    simp only [overlapWarn, Bool.and_eq_true, Bool.or_eq_true, decide_eq_true_eq,
      ge_iff_le, or_assoc]
  · intro b1 b2 hr1 hr2
    dsimp only [overlapWarn]
  · have hov : overlapWarn
        { name := "A", temperatureRange := ((0 : ℚ), 1/2), humidityRange := ((0 : ℚ), 1),
          color := ((0 : ℚ), 0, 0), weight := 1 }
        { name := "B", temperatureRange := ((3/10 : ℚ), 4/5), humidityRange := ((0 : ℚ), 1),
          color := ((0 : ℚ), 0, 0), weight := 1 } = true := by
      dsimp only [overlapWarn]
      norm_num
    simp only [checkBiomes, List.length_cons, List.length_nil]
    rw [show List.range (0 + 1 + 1) = [0, 1] from rfl]
    simp only [List.flatMap_cons, List.flatMap_nil]
    rw [show (0 + 1 + 1) - (0 + 1) = 1 from rfl, show (0 + 1 + 1) - (1 + 1) = 0 from rfl,
      show List.range' (0 + 1) 1 = [1] from rfl, show List.range' (1 + 1) 0 = [] from rfl]
    simp only [List.filter_cons, List.filter_nil, List.getD_cons_zero, List.getD_cons_succ,
      hov, if_true, List.map_cons, List.map_nil, List.nil_append, List.append_nil]

/-! ### Claims C6 and C7: the terrain mesh builder -/

theorem noiseMap_length (sinf : ℚ → ℚ) (width height : ℕ) (seed scale octaves
    persistence lacunarity offsetX offsetY : ℚ) :
    (generateNoiseMap sinf width height seed scale octaves persistence
      lacunarity offsetX offsetY).length = height := by
  simp [generateNoiseMap]

theorem noiseMap_row_length (sinf : ℚ → ℚ) (width height : ℕ) (seed scale octaves
    persistence lacunarity offsetX offsetY : ℚ) :
    ∀ row ∈ generateNoiseMap sinf width height seed scale octaves persistence
      lacunarity offsetX offsetY, row.length = width := by
  intro row hrow
  simp only [generateNoiseMap, List.mem_map] at hrow
  obtain ⟨y, _, rfl⟩ := hrow
  simp

theorem mapMO_length {α β : Type} {f : α → Option β} :
    ∀ {l : List α} {r : List β}, mapMO f l = some r → r.length = l.length := by
  intro l
  induction l with
  | nil => intro r h; simp only [mapMO, Option.some.injEq] at h; simp [← h]
  | cons a t ih =>
    intro r h
    simp only [mapMO] at h
    cases hfa : f a with
    | none => rw [hfa] at h; exact absurd h (by simp)
    | some b =>
      rw [hfa] at h
      cases hrec : mapMO f t with
      | none => rw [hrec] at h; exact absurd h (by simp)
      | some r' =>
        rw [hrec] at h
        simp only [Option.some.injEq] at h
        rw [← h, List.length_cons, ih hrec, List.length_cons]

theorem mapMO_mem {α β : Type} {f : α → Option β} :
    ∀ {l : List α} {r : List β}, mapMO f l = some r →
      ∀ b ∈ r, ∃ a ∈ l, f a = some b := by
  intro l
  induction l with
  | nil =>
    intro r h b hb
    simp only [mapMO, Option.some.injEq] at h
    rw [← h] at hb
    exact absurd hb (by simp)
  | cons a t ih =>
    intro r h b hb
    simp only [mapMO] at h
    cases hfa : f a with
    | none => rw [hfa] at h; exact absurd h (by simp)
    | some b0 =>
      rw [hfa] at h
      cases hrec : mapMO f t with
      | none => rw [hrec] at h; exact absurd h (by simp)
      | some r' =>
        rw [hrec] at h
        simp only [Option.some.injEq] at h
        rw [← h] at hb
        rcases List.mem_cons.mp hb with rfl | hb
        · exact ⟨a, List.mem_cons_self a t, hfa⟩
        · obtain ⟨a', ha', hfa'⟩ := ih hrec b hb
          exact ⟨a', List.mem_cons_of_mem a ha', hfa'⟩

theorem mapMO_isSome_of_forall {α β : Type} (f : α → Option β) :
    ∀ (l : List α), (∀ a ∈ l, (f a).isSome) →
      ∃ r, mapMO f l = some r := by
  intro l
  induction l with
  | nil => intro _; exact ⟨[], rfl⟩
  | cons a t ih =>
    intro h
    obtain ⟨b, hb⟩ := Option.isSome_iff_exists.mp (h a (List.mem_cons_self a t))
    obtain ⟨r, hr⟩ := ih fun a' ha' => h a' (List.mem_cons_of_mem a ha')
    exact ⟨b :: r, by simp only [mapMO, hb, hr]⟩

theorem sum_map_const_nat {α : Type} (l : List α) (c : ℕ) :
    (l.map fun _ => c).sum = c * l.length := by
  induction l with
  | nil => simp
  | cons a t ih => simp [ih]; ring

/-- At `segments = 0` the row index is `0/0` (`NaN` in the source), so the
biome lookup throws. -/
theorem meshBiomeAt_segments_zero (tempMap humidMap noiseMap : List (List ℚ))
    (z x : ℕ) : meshBiomeAt tempMap humidMap noiseMap 0 z x = none := by
  simp [meshBiomeAt, floorDivIdx]

/-- The scaled row/column index `⌊k * 255 / segments⌋` lies in `[0, 255]`
whenever `0 < segments` and `k ≤ segments`. -/
theorem floor_scale_idx_bounds (segments : ℤ) (hseg : 0 < segments) (k : ℕ)
    (hk : (k : ℤ) ≤ segments) :
    0 ≤ Int.floor ((k : ℚ) * 255 / (segments : ℚ)) ∧
      Int.floor ((k : ℚ) * 255 / (segments : ℚ)) < 256 := by
  have hposq : (0 : ℚ) < (segments : ℚ) := by exact_mod_cast hseg
  have hq0 : (0 : ℚ) ≤ (k : ℚ) * 255 / (segments : ℚ) := by positivity
  have hq1 : (k : ℚ) * 255 / (segments : ℚ) ≤ 255 := by
    rw [div_le_iff₀ hposq]
    have hks : (k : ℚ) ≤ (segments : ℚ) := by exact_mod_cast hk
    nlinarith
  refine ⟨Int.floor_nonneg.mpr hq0, ?_⟩
  have h1 : Int.floor ((k : ℚ) * 255 / (segments : ℚ)) ≤ Int.floor ((255 : ℚ)) :=
    Int.floor_le_floor hq1
  have h2 : Int.floor ((255 : ℚ)) = 255 := by norm_num
  omega

/-- For positive `segments`, in-range `z, x` and full 256 by 256
temperature/humidity grids, the biome lookup succeeds. -/
theorem meshBiomeAt_isSome (tempMap humidMap noiseMap : List (List ℚ))
    (segments : ℤ) (hseg : 0 < segments)
    (htl : tempMap.length = 256) (htr : ∀ row ∈ tempMap, row.length = 256)
    (hhl : humidMap.length = 256) (hhr : ∀ row ∈ humidMap, row.length = 256)
    (z x : ℕ) (hz : (z : ℤ) ≤ segments) (hx : (x : ℤ) ≤ segments) :
    (meshBiomeAt tempMap humidMap noiseMap segments z x).isSome := by
  have hdenne : ((segments : ℤ) : ℚ) ≠ 0 := by
    have : (0 : ℚ) < (segments : ℚ) := by exact_mod_cast hseg
    linarith
  obtain ⟨hz0, hz256⟩ := floor_scale_idx_bounds segments hseg z hz
  obtain ⟨hx0, hx256⟩ := floor_scale_idx_bounds segments hseg x hx
  have hzt : (Int.floor ((z : ℚ) * 255 / (segments : ℚ))).toNat < tempMap.length := by omega
  have hzh : (Int.floor ((z : ℚ) * 255 / (segments : ℚ))).toNat < humidMap.length := by omega
  have htrow := htr _ (List.getElem_mem hzt)
  have hhrow := hhr _ (List.getElem_mem hzh)
  have hxt : (Int.floor ((x : ℚ) * 255 / (segments : ℚ))).toNat <
      (tempMap[(Int.floor ((z : ℚ) * 255 / (segments : ℚ))).toNat]).length := by omega
  have hxh : (Int.floor ((x : ℚ) * 255 / (segments : ℚ))).toNat <
      (humidMap[(Int.floor ((z : ℚ) * 255 / (segments : ℚ))).toNat]).length := by omega
  simp only [meshBiomeAt, floorDivIdx, if_neg hdenne, zget, if_pos hz0, if_pos hx0,
    List.getElem?_eq_getElem hzt, List.getElem?_eq_getElem hzh,
    List.getElem?_eq_getElem hxt, List.getElem?_eq_getElem hxh]
  exact classifyBiome_isSome biomes _ _ _ (by simp [biomes])

theorem meshTempMap_length (sinf : ℚ → ℚ) (seed offsetX offsetY tempModifier : ℚ) :
    (meshTempMap sinf seed offsetX offsetY tempModifier).length = 256 := by
  simp [meshTempMap, temperatureMapRaw, noiseMap_length, generateNoiseMap]

theorem meshTempMap_row_length (sinf : ℚ → ℚ) (seed offsetX offsetY tempModifier : ℚ) :
    ∀ row ∈ meshTempMap sinf seed offsetX offsetY tempModifier, row.length = 256 := by
  intro row hrow
  simp only [meshTempMap, List.mem_map] at hrow
  obtain ⟨r0, hr0, rfl⟩ := hrow
  rw [List.length_map]
  exact noiseMap_row_length sinf 256 256 seed (1/100) 4 (1/2) 2 offsetX offsetY r0 hr0

theorem meshHumidMap_length (sinf : ℚ → ℚ) (seed offsetX offsetY humidModifier : ℚ) :
    (meshHumidMap sinf seed offsetX offsetY humidModifier).length = 256 := by
  simp [meshHumidMap, humidityMapRaw, noiseMap_length, generateNoiseMap]

theorem meshHumidMap_row_length (sinf : ℚ → ℚ) (seed offsetX offsetY humidModifier : ℚ) :
    ∀ row ∈ meshHumidMap sinf seed offsetX offsetY humidModifier, row.length = 256 := by
  intro row hrow
  simp only [meshHumidMap, List.mem_map] at hrow
  obtain ⟨r0, hr0, rfl⟩ := hrow
  rw [List.length_map]
  exact noiseMap_row_length sinf 256 256 seed (1/100) 4 (1/2) 2 offsetX offsetY r0 hr0

theorem planeGeometryPositions_length (size : ℚ) (segments : ℤ) :
    (planeGeometryPositions size segments).length = (segments + 1).toNat ^ 2 := by
  simp only [planeGeometryPositions, List.length_flatMap]
  have h : (List.map (List.length ∘ fun (iz : ℕ) =>
      (List.range (segments + 1).toNat).map fun (ix : ℕ) =>
        (size * (ix : ℚ) / (segments : ℚ) - size / 2, (0 : ℚ),
         size * (iz : ℚ) / (segments : ℚ) - size / 2))
      (List.range (segments + 1).toNat)) =
      (List.range (segments + 1).toNat).map fun _ => (segments + 1).toNat :=
    List.map_congr_left fun iz _ => by simp [Function.comp]
  rw [h, sum_map_const_nat, List.length_range]
  ring

theorem meshPositions_length (sinf : ℚ → ℚ) (size : ℚ) (segments : ℤ)
    (seed scale octaves persistence lacunarity amplitude offsetX offsetY : ℚ) :
    (meshPositions sinf size segments seed scale octaves persistence lacunarity
      amplitude offsetX offsetY).length = (segments + 1).toNat ^ 2 := by
  simp only [meshPositions, List.length_mapIdx]
  exact planeGeometryPositions_length size segments

theorem meshColors_length (biomeMap : List (List Biome)) (n : ℕ)
    (hl : biomeMap.length = n) (hr : ∀ row ∈ biomeMap, row.length = n) :
    (meshColors biomeMap).length = 3 * n ^ 2 := by
  simp only [meshColors, List.length_flatten, List.map_map]
  have hrow : ∀ row ∈ biomeMap,
      (List.length ∘ fun row : List Biome =>
        (row.map fun b => [b.color.1, b.color.2.1, b.color.2.2]).flatten) row = 3 * n := by
    intro row hmem
    simp only [Function.comp_apply, List.length_flatten, List.map_map]
    have h : (List.map (List.length ∘ fun b : Biome =>
        [b.color.1, b.color.2.1, b.color.2.2]) row) = row.map fun _ => 3 :=
      List.map_congr_left fun b _ => by simp [Function.comp]
    rw [h, sum_map_const_nat, hr row hmem]
  rw [List.map_congr_left hrow, sum_map_const_nat, hl]
  ring

/-- With positive `segments` every biome lookup succeeds, so the builder
returns a mesh with `(segments+1)²` vertices and `3·(segments+1)²` color
entries. -/
theorem mesh_builds_of_pos (sinf : ℚ → ℚ) (size : ℚ) (segments : ℤ)
    (seed scale octaves persistence lacunarity amplitude offsetX offsetY
     tempModifier humidModifier : ℚ) (hseg : 0 < segments) :
    ∃ m, generateTerrainMesh sinf size segments seed scale octaves persistence
      lacunarity amplitude offsetX offsetY tempModifier humidModifier = some m ∧
      m.positions.length = (segments + 1).toNat ^ 2 ∧
      m.colors.length = 3 * (segments + 1).toNat ^ 2 := by
  have hbound : ∀ k ∈ List.range (segments + 1).toNat, (k : ℤ) ≤ segments := by
    intro k hk
    rw [List.mem_range] at hk
    omega
  have hcell : ∀ z ∈ List.range (segments + 1).toNat,
      ∀ x ∈ List.range (segments + 1).toNat,
      (meshBiomeAt (meshTempMap sinf seed offsetX offsetY tempModifier)
        (meshHumidMap sinf seed offsetX offsetY humidModifier)
        (meshNoiseMap sinf segments seed scale octaves persistence lacunarity offsetX offsetY)
        segments z x).isSome := by
    intro z hz x hx
    exact meshBiomeAt_isSome _ _ _ segments hseg
      (meshTempMap_length sinf seed offsetX offsetY tempModifier)
      (meshTempMap_row_length sinf seed offsetX offsetY tempModifier)
      (meshHumidMap_length sinf seed offsetX offsetY humidModifier)
      (meshHumidMap_row_length sinf seed offsetX offsetY humidModifier)
      z x (hbound z hz) (hbound x hx)
  have hout : ∃ bm, meshBiomeMapOpt sinf segments seed scale octaves persistence
      lacunarity offsetX offsetY tempModifier humidModifier = some bm := by
    simp only [meshBiomeMapOpt]
    apply mapMO_isSome_of_forall
    intro z hz
    obtain ⟨r, hr⟩ := mapMO_isSome_of_forall _ _ (fun x hx => hcell z hz x hx)
    simp [hr]
  obtain ⟨bm, hbm⟩ := hout
  have hbm' : mapMO (fun z => mapMO (fun x =>
      meshBiomeAt (meshTempMap sinf seed offsetX offsetY tempModifier)
        (meshHumidMap sinf seed offsetX offsetY humidModifier)
        (meshNoiseMap sinf segments seed scale octaves persistence lacunarity offsetX offsetY)
        segments z x) (List.range (segments + 1).toNat))
      (List.range (segments + 1).toNat) = some bm := by
    simpa only [meshBiomeMapOpt] using hbm
  have hbml : bm.length = (segments + 1).toNat := by
    have := mapMO_length hbm'
    simpa using this
  have hbmrow : ∀ row ∈ bm, row.length = (segments + 1).toNat := by
    intro row hrow
    obtain ⟨z, _, hfz⟩ := mapMO_mem hbm' row hrow
    have := mapMO_length hfz
    simpa using this
  refine ⟨{ positions := meshPositions sinf size segments seed scale octaves
              persistence lacunarity amplitude offsetX offsetY,
            colors := meshColors bm }, ?_, ?_, ?_⟩
  · simp only [generateTerrainMesh, hbm]
  · exact meshPositions_length sinf size segments seed scale octaves persistence
      lacunarity amplitude offsetX offsetY
  · exact meshColors_length bm (segments + 1).toNat hbml hbmrow

/-- With negative `segments` every loop is empty: the builder silently
returns an empty mesh instead of failing. -/
theorem mesh_neg_empty (sinf : ℚ → ℚ) (size : ℚ) (segments : ℤ)
    (seed scale octaves persistence lacunarity amplitude offsetX offsetY
     tempModifier humidModifier : ℚ) (hseg : segments < 0) :
    generateTerrainMesh sinf size segments seed scale octaves persistence
      lacunarity amplitude offsetX offsetY tempModifier humidModifier =
      some { positions := [], colors := [] } := by
  have hn : (segments + 1).toNat = 0 := by omega
  have hbm : meshBiomeMapOpt sinf segments seed scale octaves persistence
      lacunarity offsetX offsetY tempModifier humidModifier = some [] := by
    simp only [meshBiomeMapOpt, hn, List.range_zero]
    rfl
  have hplen := meshPositions_length sinf size segments seed scale octaves
    persistence lacunarity amplitude offsetX offsetY
  rw [hn] at hplen
  have hpos : meshPositions sinf size segments seed scale octaves persistence
      lacunarity amplitude offsetX offsetY = [] := by
    rw [← List.length_eq_zero]
    simpa using hplen
  simp only [generateTerrainMesh, hbm, hpos]
  rfl

/-- At `segments = 0` the biome loop hits the `0/0` index on its first cell
and the builder fails, producing no mesh. -/
theorem mesh_segments_zero_none (sinf : ℚ → ℚ) (size : ℚ)
    (seed scale octaves persistence lacunarity amplitude offsetX offsetY
     tempModifier humidModifier : ℚ) :
    generateTerrainMesh sinf size 0 seed scale octaves persistence lacunarity
      amplitude offsetX offsetY tempModifier humidModifier = none := by
  have hbm : meshBiomeMapOpt sinf 0 seed scale octaves persistence lacunarity
      offsetX offsetY tempModifier humidModifier = none := by
    simp only [meshBiomeMapOpt]
    rw [show ((0 : ℤ) + 1).toNat = 1 from rfl, show List.range 1 = [0] from rfl]
    simp only [mapMO, meshBiomeAt_segments_zero]
  simp only [generateTerrainMesh, hbm]

/-- C6 (amended). Negative `size` or `segments` is not validated and raises
no error: negative `segments` silently yields an empty mesh (zero vertices,
empty color buffer), and a negative `size` still yields a mesh whenever the
segment count is positive. -/
theorem mesh_negative_inputs_silent (sinf : ℚ → ℚ) (size : ℚ) (segments : ℤ)
    (seed scale octaves persistence lacunarity amplitude offsetX offsetY
     tempModifier humidModifier : ℚ) :
    (segments < 0 →
      generateTerrainMesh sinf size segments seed scale octaves persistence
        lacunarity amplitude offsetX offsetY tempModifier humidModifier =
        some { positions := [], colors := [] }) ∧
    (size < 0 → 0 < segments →
      ∃ m, generateTerrainMesh sinf size segments seed scale octaves persistence
        lacunarity amplitude offsetX offsetY tempModifier humidModifier = some m) := by
  constructor
  · intro h
    exact mesh_neg_empty sinf size segments seed scale octaves persistence
      lacunarity amplitude offsetX offsetY tempModifier humidModifier h
  · intro _ hseg
    obtain ⟨m, hm', _, _⟩ := mesh_builds_of_pos sinf size segments seed scale
      octaves persistence lacunarity amplitude offsetX offsetY tempModifier
      humidModifier hseg
    exact ⟨m, hm'⟩

/-- Witness for `mesh_negative_inputs_silent` at concrete inputs. -/
theorem mesh_negative_inputs_silent_witness :
    ((-1 : ℤ) < 0 ∧
      generateTerrainMesh (fun _ => 0) (-5) (-1) 0 1 1 1 1 1 0 0 0 0 =
        some { positions := [], colors := [] }) ∧
    ((-5 : ℚ) < 0 ∧ (0 : ℤ) < 1 ∧
      ∃ m, generateTerrainMesh (fun _ => 0) (-5) 1 0 1 1 1 1 1 0 0 0 0 = some m) :=
  ⟨⟨by norm_num,
    (mesh_negative_inputs_silent (fun _ => 0) (-5) (-1) 0 1 1 1 1 1 0 0 0 0).1
      (by norm_num)⟩,
   ⟨by norm_num, by norm_num,
    (mesh_negative_inputs_silent (fun _ => 0) (-5) 1 0 1 1 1 1 1 0 0 0 0).2
      (by norm_num) (by norm_num)⟩⟩

/-- C6 (counterexample). The claim that negative size or segments makes the
builder fail fast with no mesh is false: at `size = -5`, `segments = -1`
the builder silently returns an (empty) mesh. -/
theorem mesh_negative_error_counterexample :
    ¬ (∀ (sinf : ℚ → ℚ) (size : ℚ) (segments : ℤ)
        (seed scale octaves persistence lacunarity amplitude offsetX offsetY
         tempModifier humidModifier : ℚ),
        size < 0 ∨ segments < 0 →
        generateTerrainMesh sinf size segments seed scale octaves persistence
          lacunarity amplitude offsetX offsetY tempModifier humidModifier = none) := by
  intro H
  have h := H (fun _ => 0) (-5) (-1) 0 1 1 1 1 1 0 0 0 0 (Or.inr (by norm_num))
  rw [mesh_neg_empty (fun _ => 0) (-5) (-1) 0 1 1 1 1 1 0 0 0 0 (by norm_num)] at h
  exact absurd h (by simp)

/-- C7 (amended). For every positive `segments` the mesh exists and has
exactly `(segments+1)²` vertices and a color buffer of length
`(segments+1)² × 3`; at `segments = 0` the builder fails instead (the
`0/0` biome index), so the claim's bound must exclude zero. -/
theorem mesh_vertex_color_counts (sinf : ℚ → ℚ) (size : ℚ) (segments : ℤ)
    (seed scale octaves persistence lacunarity amplitude offsetX offsetY
     tempModifier humidModifier : ℚ) (hseg : 0 < segments) :
    ∃ m, generateTerrainMesh sinf size segments seed scale octaves persistence
      lacunarity amplitude offsetX offsetY tempModifier humidModifier = some m ∧
      (m.positions.length : ℤ) = (segments + 1) ^ 2 ∧
      (m.colors.length : ℤ) = 3 * (segments + 1) ^ 2 := by
  obtain ⟨m, hm', hp, hc⟩ := mesh_builds_of_pos sinf size segments seed scale
    octaves persistence lacunarity amplitude offsetX offsetY tempModifier
    humidModifier hseg
  have ht : (((segments + 1).toNat : ℤ)) = segments + 1 :=
    Int.toNat_of_nonneg (by omega)
  refine ⟨m, hm', ?_, ?_⟩
  · rw [hp]
    push_cast
    rw [ht]
  · rw [hc]
    push_cast
    rw [ht]

/-- Witness for `mesh_vertex_color_counts`: `segments = 4` yields 25
vertices and a 75-entry color buffer. -/
theorem mesh_vertex_color_counts_witness :
    (0 : ℤ) < 4 ∧
    ∃ m, generateTerrainMesh (fun _ => 0) 100 4 42 (1/20) 8 (2/5) 2 (1/20) 0 0 0 0 =
        some m ∧
      (m.positions.length : ℤ) = 25 ∧ (m.colors.length : ℤ) = 75 := by
  refine ⟨by norm_num, ?_⟩
  obtain ⟨m, hm', hp, hc⟩ := mesh_vertex_color_counts (fun _ => 0) 100 4 42
    (1/20) 8 (2/5) 2 (1/20) 0 0 0 0 (by norm_num)
  refine ⟨m, hm', by rw [hp]; norm_num, by rw [hc]; norm_num⟩

/-- C7 (counterexample). The claim quantifies over every non-negative
`segments`, but at `segments = 0` the builder produces no mesh at all: the
first biome lookup divides by zero and throws. -/
theorem mesh_counts_zero_counterexample :
    ¬ (∀ (sinf : ℚ → ℚ) (size : ℚ) (segments : ℤ)
        (seed scale octaves persistence lacunarity amplitude offsetX offsetY
         tempModifier humidModifier : ℚ),
        0 ≤ segments →
        ∃ m, generateTerrainMesh sinf size segments seed scale octaves persistence
          lacunarity amplitude offsetX offsetY tempModifier humidModifier = some m ∧
          (m.positions.length : ℤ) = (segments + 1) ^ 2 ∧
          (m.colors.length : ℤ) = 3 * (segments + 1) ^ 2) := by
  intro H
  obtain ⟨m, hm', _, _⟩ := H (fun _ => 0) 100 0 42 (1/20) 8 (2/5) 2 (1/20) 0 0 0 0 le_rfl
  rw [mesh_segments_zero_none (fun _ => 0) 100 42 (1/20) 8 (2/5) 2 (1/20) 0 0 0 0] at hm'
  exact absurd hm' (by simp)

end SpaceGame
